import Mathlib

/-!
Shallow embedding of `src/hanabi_agents/rlax_dqn/rlax_rainbow.py` and proofs
about its policy engine, learning engine and population orchestrator.

Modelling conventions:
* machine floats are modelled by exact rationals (`ℚ`); the IEEE value `-inf`
  produced by the legal-action mask is modelled by `⊥` of `WithBot ℚ`;
* transcendental maps (`exp`, `log`, `softmax` outputs) are passed as explicit
  function arguments or taken as inputs, since they have no exact rational
  form; at every concrete input of a theorem below their exact value is known;
* `jnp.sqrt` is modelled by `Rat.sqrt`, which agrees with the real square root
  on every perfect-square rational (all inputs our theorems evaluate it on);
* the pseudorandom uniform draws of `jax.random.uniform` are passed in as an
  explicit rational `rnd` in the half-open range the source requests.
-/

namespace HanabiAgents

/-! ### Policy engine: DQNPolicy (rlax_rainbow.py lines 70-250) -/

/-- Inclusive prefix sums, mirroring `jnp.cumsum(probs, axis=-1)` (line 76). -/
def cumsum : List ℚ → List ℚ
  | [] => []
  | x :: xs => x :: (cumsum xs).map (fun y => x + y)

/-- `jax.ops.index_update(cpi, jax.ops.index[:, -1], 1.)` (line 82): overwrite
the last cumulative-probability entry with 1. -/
def clampLast (l : List ℚ) : List ℚ := l.set (l.length - 1) 1

/-- `jnp.argmin(rnds > cpi, axis=-1)` (line 84): index of the first `False`
entry of the boolean vector `rnd > cpi`, i.e. the first index `j` with
`rnd ≤ cpi[j]`; the argmin of an all-`True` vector is 0. -/
def argminNotGt (rnd : ℚ) (cpi : List ℚ) : ℕ :=
  if cpi.findIdx (fun c => decide (rnd ≤ c)) < cpi.length
  then cpi.findIdx (fun c => decide (rnd ≤ c)) else 0

/-- `DQNPolicy._categorical_sample` (lines 73-84): inverse-CDF sampling, given
the uniform draw `rnd` that the source takes from `[0, 0.999)`. -/
def categoricalSample (rnd : ℚ) (probs : List ℚ) : ℕ :=
  argminNotGt rnd (clampLast (cumsum probs))

/-- The categorical sampler used inside `rlax.greedy()`, which `eval_policy`
calls at line 250.  `rlax` is an external dependency; its sampler is the same
inverse-CDF scheme but without the clamp of the last entry, with `rnd` drawn
from `[0, 1)`. -/
def rlaxCategoricalSample (rnd : ℚ) (probs : List ℚ) : ℕ :=
  argminNotGt rnd (cumsum probs)

/-- `jnp.where(lms, q_vals, -jnp.inf)` (lines 206 and 246): mask the q-values
of illegal actions with `-inf` (modelled by `⊥`). -/
def maskQ (q : List ℚ) (lms : List Bool) : List (WithBot ℚ) :=
  List.zipWith (fun l v => if l then (v : WithBot ℚ) else ⊥) lms q

/-- Row maximum over masked preferences, as in `preferences.max(axis=-1)`
(line 108) and `jnp.max(weighted_probs, axis=-1)` (line 100). -/
def wbMax (l : List (WithBot ℚ)) : WithBot ℚ := l.foldr max ⊥

/-- `DQNPolicy._argmax_with_random_tie_breaking` (lines 105-109): the indicator
vector of the maximal entries, divided by the number of maximal entries. -/
def argmaxTieBreakProbs (prefs : List (WithBot ℚ)) : List ℚ :=
  let opt := prefs.map (fun p => if p = wbMax prefs then (1 : ℚ) else 0)
  opt.map (fun x => x / opt.sum)

/-- `DQNPolicy._mix_with_legal_uniform` (lines 88-93). -/
def mixWithLegalUniform (probs : List ℚ) (eps : ℚ) (lms : List Bool) : List ℚ :=
  let legal : List ℚ := lms.map (fun l => if l then 1 else 0)
  List.zipWith (fun p u => (1 - eps) * p + eps * (u / legal.sum)) probs legal

/-- Underlying rational of a masked entry; only ever evaluated at legal
(finite) entries in the theorems below. -/
def unbot0 (x : WithBot ℚ) : ℚ := x.unbot' 0

/-- `DQNPolicy._apply_legal_boltzmann` (lines 95-103), with the exponential
passed in as `E`.  The division of the masked preferences by `tau` is modelled
with `WithBot.map`, which keeps `-inf` at `-inf`; this is faithful to IEEE
arithmetic for `tau > 0`, the only range the theorems below use. -/
def applyLegalBoltzmann (E : ℚ → ℚ) (prefs : List (WithBot ℚ)) (tau : ℚ)
    (lms : List Bool) : List ℚ :=
  let weighted := prefs.map (WithBot.map (fun v => v / tau))
  let m := wbMax weighted
  let boltz := List.zipWith
    (fun l w => if l then E (unbot0 w - unbot0 m) else 0) lms weighted
  boltz.map (fun x => x / boltz.sum)

/-- The action-selection tail of `DQNPolicy.policy` (lines 206-213), applied to
the q-values emitted by the network, with the uniform draw `rnd` explicit. -/
def policyAction (E : ℚ → ℚ) (useSoftmax : Bool) (q : List ℚ) (lms : List Bool)
    (eps tau rnd : ℚ) : ℕ :=
  let qm := maskQ q lms
  if useSoftmax then
    categoricalSample rnd (applyLegalBoltzmann E qm tau lms)
  else
    categoricalSample rnd (mixWithLegalUniform (argmaxTieBreakProbs qm) eps lms)

/-- The action selection of `DQNPolicy.eval_policy` (lines 246-250): greedy
over the masked q-values via `rlax.greedy().sample`, which is argmax with
random tie-breaking followed by the rlax categorical sampler. -/
def evalPolicyAction (q : List ℚ) (lms : List Bool) (rnd : ℚ) : ℕ :=
  rlaxCategoricalSample rnd (argmaxTieBreakProbs (maskQ q lms))

/-- Per-action distributional q-value of `policy` and `eval_policy` (lines
196-199 and 236-239): `jnp.mean(probs * atoms, axis=-1)` for one action row,
where `probs` is the softmax of the network logits for that action (taken as
input, softmax being transcendental). -/
def qFromDist (probs atoms : List ℚ) : ℚ :=
  (List.zipWith (fun p z => p * z) probs atoms).sum
    / (List.zipWith (fun p z => p * z) probs atoms).length

/-- Modelled from the spec: `q_values` as "the expectation of that distribution
over AtomSupport", i.e. the sum over atoms of probability times atom value. -/
def qFromDistSpec (probs atoms : List ℚ) : ℚ :=
  (List.zipWith (fun p z => p * z) probs atoms).sum

/-! ### Learning engine: DQNLearning.update_q (lines 251-378) and the optax
optimizer built by `custom_adam` (lines 57-66, 464) -/

/-- State of `optax scale_by_adam`, the only member of the `custom_adam` chain
(lines 57-62): first and second moment estimates and the step count. -/
structure AdamState where
  mu : ℚ
  nu : ℚ
  count : ℕ
deriving DecidableEq

/-- The `scale_by_adam` update for one scalar parameter leaf, following the
optax source: moment updates, bias correction with the incremented count, then
`mu_hat / (sqrt(nu_hat + eps_root) + eps)`. -/
def scaleByAdamUpdate (b1 b2 eps epsRoot : ℚ) (g : ℚ) (st : AdamState) :
    ℚ × AdamState :=
  let mu := b1 * st.mu + (1 - b1) * g
  let nu := b2 * st.nu + (1 - b2) * g ^ 2
  let c := st.count + 1
  let muHat := mu / (1 - b1 ^ c)
  let nuHat := nu / (1 - b2 ^ c)
  (muHat / (Rat.sqrt (nuHat + epsRoot) + eps), ⟨mu, nu, c⟩)

/-- `custom_adam` exactly as instantiated by `DQNAgent.__init__` line 464:
defaults b1 = 0.9, b2 = 0.999, eps_root = 0, with eps = 3.125e-5. -/
def customAdamUpdate (g : ℚ) (st : AdamState) : ℚ × AdamState :=
  scaleByAdamUpdate (9/10) (999/1000) (3125/100000000) 0 g st

/-- `apply_lr` (lines 64-66): scale every update leaf by the stored rate. -/
def applyLr (lr : ℚ) (u : ℚ) : ℚ := lr * u

/-- The parameter-update tail of `DQNLearning.update_q` (lines 373-375) for one
scalar parameter leaf: `optimizer.update` first, then `apply_lr`, then
`optax.apply_updates` (elementwise addition). -/
def updateQParamStep (lr p g : ℚ) (st : AdamState) : ℚ × AdamState :=
  let us := customAdamUpdate g st
  (p + applyLr lr us.1, us.2)

/-- Modelled from the spec: the claim orders the steps as "gradients are scaled
by a (possibly negative) learning-rate scalar before being passed to the
optimizer's own update rule, then applied additively to parameters". -/
def updateQParamStepSpec (lr p g : ℚ) (st : AdamState) : ℚ × AdamState :=
  let us := customAdamUpdate (lr * g) st
  (p + us.1, us.2)

/-- The learning-rate vector stored by `DQNAgent.__init__` (lines 486-496):
with `num_unique_parallel = 1` (line 409) the loop copies each configured rate
once, and line 496 (`self.lr = -self.lr`) negates the whole vector. -/
def storedLr (lrs : List ℚ) : List ℚ := lrs.map (fun x => -x)

/-- Maximum of a q-value row (`jnp.max`); rows are nonempty in every use. -/
def listMax (l : List ℚ) : ℚ := l.foldr max (l.headD 0)

/-- `jnp.argmax`: index of the first maximal entry. -/
def argmaxIdx (l : List ℚ) : ℕ :=
  if l.findIdx (fun x => decide (x = listMax l)) < l.length
  then l.findIdx (fun x => decide (x = listMax l)) else 0

/-- `jnp.where(term_t, 0, discount_t)`, applied in all four loss variants of
`update_q` (lines 280, 295, 312, 328). -/
def discountWhere (term : Bool) (discount : ℚ) : ℚ := if term then 0 else discount

/-- The TD target of `rlax.q_learning` (external dependency, embedded from its
source): `r + discount * max(q_t)`. -/
def qLearningTarget (r discount : ℚ) (q_t : List ℚ) : ℚ :=
  r + discount * listMax q_t

/-- `rlax.q_learning` TD error: target minus the online value of the action
taken. -/
def qLearningTd (q_tm1 : List ℚ) (a : ℕ) (r discount : ℚ) (q_t : List ℚ) : ℚ :=
  qLearningTarget r discount q_t - q_tm1.getD a 0

/-- The TD target of `rlax.double_q_learning`: bootstrap with the target
network value of the action selected by the online (selector) network. -/
def doubleQTarget (r discount : ℚ) (q_t q_sel : List ℚ) : ℚ :=
  r + discount * q_t.getD (argmaxIdx q_sel) 0

/-- `rlax.double_q_learning` TD error. -/
def doubleQTd (q_tm1 : List ℚ) (a : ℕ) (r discount : ℚ) (q_t q_sel : List ℚ) : ℚ :=
  doubleQTarget r discount q_t q_sel - q_tm1.getD a 0

/-- The target support of the two categorical losses: `r + discount * z` for
every atom `z` (rlax `categorical_q_learning` and
`categorical_double_q_learning`). -/
def categoricalTargetZ (r discount : ℚ) (atoms : List ℚ) : List ℚ :=
  atoms.map (fun z => r + discount * z)

/-- rlax `categorical_l2_project` (external dependency, embedded from its
source): project the categorical distribution with support `zp` and masses
`probs` onto the support `zq`.  `jnp.roll` is list rotation; the junk spacing
entries the roll produces at the borders are neutralised by the clipping, as
in the source. -/
def l2Project (zp probs zq : List ℚ) : List ℚ :=
  let vmin := zq.headD 0
  let vmax := (zq.getLast?).getD 0
  let zpc := zp.map (fun x => max vmin (min x vmax))
  let dpos := List.zipWith (fun a b => a - b) (zq.rotateLeft 1) zq
  let dneg := List.zipWith (fun a b => a - b) zq (zq.rotateRight 1)
  (List.range zq.length).map (fun j =>
    (List.zipWith (fun x p =>
      let d := x - zq.getD j 0
      let coeff := if 0 ≤ d then 1 - d / dpos.getD j 0 else 1 + d / dneg.getD j 0
      (max 0 (min coeff 1)) * p) zpc probs).sum)

/-- rlax `categorical_q_learning` TD error for one transition.  Softmax rows
are taken as inputs and the logarithm of the cross-entropy is passed as `L`
(both transcendental): `probs_t` is the target-network distribution per
action, `probs_tm1_a` the online distribution of the action taken.  The
greedy action is selected by the expected value of the target distribution. -/
def categoricalQTd (L : ℚ → ℚ) (atoms : List ℚ) (probs_tm1_a : List ℚ)
    (r discount : ℚ) (probs_t : List (List ℚ)) : ℚ :=
  let q_t := probs_t.map (fun row => (List.zipWith (fun p z => p * z) row atoms).sum)
  let target := l2Project (categoricalTargetZ r discount atoms)
    (probs_t.getD (argmaxIdx q_t) []) atoms
  Neg.neg (List.zipWith (fun tp lq => tp * lq) target (probs_tm1_a.map L)).sum

/-- rlax `categorical_double_q_learning` TD error: the greedy action comes from
the selector values `q_sel` computed from the online network (line 276). -/
def categoricalDoubleQTd (L : ℚ → ℚ) (atoms : List ℚ) (probs_tm1_a : List ℚ)
    (r discount : ℚ) (probs_t : List (List ℚ)) (q_sel : List ℚ) : ℚ :=
  let target := l2Project (categoricalTargetZ r discount atoms)
    (probs_t.getD (argmaxIdx q_sel) []) atoms
  Neg.neg (List.zipWith (fun tp lq => tp * lq) target (probs_tm1_a.map L)).sum

/-- One transition of a sampled batch, gathering the per-sample slices that the
vmapped scalar loss functions of `update_q` consume. -/
structure TSample where
  q_tm1 : List ℚ
  a : ℕ
  r : ℚ
  q_t : List ℚ
  q_sel : List ℚ
  term : Bool
deriving DecidableEq

/-- One transition of a sampled batch for the two categorical loss variants. -/
structure CatSample where
  probs_tm1_a : List ℚ
  a : ℕ
  r : ℚ
  probs_t : List (List ℚ)
  q_sel : List ℚ
  term : Bool

/-- `q_td` of `update_q` (lines 321-334): zero the discount of terminal
transitions, then return the squared `rlax.q_learning` errors. -/
def q_td (discount : ℚ) (batch : List TSample) : List ℚ :=
  batch.map (fun s =>
    (qLearningTd s.q_tm1 s.a s.r (discountWhere s.term discount) s.q_t) ^ 2)

/-- `double_q_td` of `update_q` (lines 304-318). -/
def double_q_td (discount : ℚ) (batch : List TSample) : List ℚ :=
  batch.map (fun s =>
    (doubleQTd s.q_tm1 s.a s.r (discountWhere s.term discount) s.q_t s.q_sel) ^ 2)

/-- `categorical_q_td` of `update_q` (lines 288-301). -/
def categorical_q_td (L : ℚ → ℚ) (atoms : List ℚ) (discount : ℚ)
    (batch : List CatSample) : List ℚ :=
  batch.map (fun s =>
    categoricalQTd L atoms s.probs_tm1_a s.r (discountWhere s.term discount) s.probs_t)

/-- `categorical_double_q_td` of `update_q` (lines 272-285). -/
def categorical_double_q_td (L : ℚ → ℚ) (atoms : List ℚ) (discount : ℚ)
    (batch : List CatSample) : List ℚ :=
  batch.map (fun s =>
    categoricalDoubleQTd L atoms s.probs_tm1_a s.r (discountWhere s.term discount)
      s.probs_t s.q_sel)

/-- `new_prios` of the two scalar loss variants (line 356): `jnp.sqrt` of the
squared TD errors. -/
def newPriosScalar (batchLoss : List ℚ) : List ℚ := batchLoss.map Rat.sqrt

/-- `new_prios` of the two distributional loss variants (line 354): absolute
value of the TD errors. -/
def newPriosDistributional (batchLoss : List ℚ) : List ℚ :=
  batchLoss.map (fun x => |x|)

/-! ### Population orchestrator: DQNAgent (lines 383-788)

The network parameters and the optimizer state are opaque pytrees; the agent
state is parametric in their joint type `P`.  `network.apply` is the external
NetworkInterface and is passed in as a function where an operation needs it;
the composite of buffer sampling and the vectorised `update_q` inside
`update()` is likewise passed in as functions of the core state it reads.  The
`hk.PRNGSequence` is modelled by a draw counter `rng` together with an ambient
assignment `theta` of uniform draws to draw indices. -/

/-- One stored transition (contents of the external replay buffers). -/
structure Transition where
  obs_tm1 : List ℚ
  act_tm1 : ℕ
  rew_t : ℚ
  obs_t : List ℚ
  lms_t : List Bool
  term_t : Bool
deriving DecidableEq

/-- Static configuration: the fields of RlaxRainbowParams that the modelled
operations read, after the scalar-to-callable normalisation of `__init__`
(lines 394-402). -/
structure AgentCfg where
  fixed_weights : Bool
  use_priority : Bool
  target_update_period : ℕ
  use_boltzmann_exploration : Bool
  epsilon : ℕ → ℚ
  tau : ℕ → ℚ
  num_parallel : ℕ

/-- Mutable state of `DQNAgent`, parametric in the parameter type `P` (the
joint type of `online_params`/`trg_params` and the optimizer state). -/
structure AgentState (P : Type) where
  online_params : P
  trg_params : P
  train_step : ℕ
  rng : ℕ
  past_obs : List (List ℚ)
  past_lms : List (List ℚ)
  intermediate_indices : List (List (List ℕ))
  intermediate_tds : List (List (List ℚ))
  prio_writes : List (List (List ℕ × List ℚ))
  experience : List (List Transition)

/-- One per-state slice of a vectorised observation: the observation vector
and the legal-moves mask (`observations[1][0]` and `observations[1][1]`). -/
structure ObsIn where
  obs : List ℚ
  lms : List Bool

/-- `onp.roll(buf, -k, axis=0)` followed by overwriting the last `k` rows with
the new rows (lines 528-531 and 551-554). -/
def rollHist (buf new : List (List ℚ)) : List (List ℚ) :=
  buf.drop new.length ++ new

/-- Legal-move mask rows as stored into `past_lms` (the numpy array holds
floats). -/
def lmsRow (lms : List Bool) : List ℚ := lms.map (fun b => if b then 1 else 0)

/-- `DQNAgent.explore` (lines 549-568): one fresh key per state slice, the
stochastic policy on the online parameters, and an in-place update of the
rolling history.  `netQ` is the per-observation q-value row produced by
`network.apply` on the online parameters. -/
def explore {P : Type} (E : ℚ → ℚ) (theta : ℕ → ℚ) (netQ : P → List ℚ → List ℚ)
    (cfg : AgentCfg) (obs : List ObsIn) (s : AgentState P) :
    List ℕ × AgentState P :=
  let actions := obs.enum.map (fun oi =>
    policyAction E cfg.use_boltzmann_exploration (netQ s.online_params oi.2.obs)
      oi.2.lms (cfg.epsilon s.train_step) (cfg.tau s.train_step)
      (theta (s.rng + oi.1)))
  (actions,
   { s with
     rng := s.rng + obs.length,
     past_obs := rollHist s.past_obs (obs.map (fun o => o.obs)),
     past_lms := rollHist s.past_lms (obs.map (fun o => lmsRow o.lms)) })

/-- `DQNAgent.exploit` (lines 524-545): the deterministic evaluation policy;
the rolling history is written only when `eval` is false. -/
def exploit {P : Type} (theta : ℕ → ℚ) (netQ : P → List ℚ → List ℚ)
    (eval : Bool) (obs : List ObsIn) (s : AgentState P) :
    List ℕ × AgentState P :=
  let actions := obs.enum.map (fun oi =>
    evalPolicyAction (netQ s.online_params oi.2.obs) oi.2.lms
      (theta (s.rng + oi.1)))
  let s1 := { s with rng := s.rng + obs.length }
  if eval then (actions, s1)
  else (actions,
    { s1 with
      past_obs := rollHist s.past_obs (obs.map (fun o => o.obs)),
      past_lms := rollHist s.past_lms (obs.map (fun o => lmsRow o.lms)) })

/-- `DQNAgent.add_experience` (lines 574-588): slice the concatenated batch
evenly by population member and append each slice to that member buffer. -/
def addExperience {P : Type} (cfg : AgentCfg) (batch : List Transition)
    (s : AgentState P) : AgentState P :=
  let obsLen := batch.length / cfg.num_parallel
  { s with
    experience := s.experience.enum.map (fun ib =>
      ib.2 ++ ((batch.drop (ib.1 * obsLen)).take obsLen)) }

/-- `DQNAgent.update` (lines 604-681).  The buffer sampling together with the
vectorised `update_q` call is abstracted into `stepP` (the new online
parameters and optimizer state) and `sampleF` (the sampled indices and the
td-error priorities they produce), both functions of exactly the core state
the source reads for them; the short-circuit on `fixed_weights`, the pending
queues, the target synchronisation and the step counter follow the source. -/
def agentUpdate {P : Type} (cfg : AgentCfg)
    (stepP : ℕ → List (List Transition) → P → P → P)
    (sampleF : ℕ → List (List Transition) → P → P → List (List ℕ) × List (List ℚ))
    (s : AgentState P) : AgentState P :=
  if cfg.fixed_weights then s
  else
    let drawn := sampleF s.train_step s.experience s.online_params s.trg_params
    let online2 := stepP s.train_step s.experience s.online_params s.trg_params
    let s2 := { s with
      rng := s.rng + 3 * cfg.num_parallel,
      online_params := online2,
      intermediate_indices :=
        if cfg.use_priority then s.intermediate_indices ++ [drawn.1]
        else s.intermediate_indices,
      intermediate_tds :=
        if cfg.use_priority then s.intermediate_tds ++ [drawn.2]
        else s.intermediate_tds }
    let s3 :=
      if s.train_step % cfg.target_update_period = 0
      then { s2 with trg_params := online2 } else s2
    { s3 with train_step := s.train_step + 1 }

/-- Iterated calls to `update()`. -/
def agentUpdateIter {P : Type} (cfg : AgentCfg)
    (stepP : ℕ → List (List Transition) → P → P → P)
    (sampleF : ℕ → List (List Transition) → P → P → List (List ℕ) × List (List ℚ)) :
    ℕ → AgentState P → AgentState P
  | 0, s => s
  | n + 1, s => agentUpdate cfg stepP sampleF (agentUpdateIter cfg stepP sampleF n s)

/-- Per-member concatenation of the flushed pending entries:
`indices[i].extend(subset)` over all flushed steps (lines 690-692), and
`onp.hstack` over the member axis for the td errors (line 697). -/
def memberJoin {a : Type} (n : ℕ) (steps : List (List (List a))) : List (List a) :=
  (List.range n).map (fun i => (steps.map (fun st => st.getD i [])).flatten)

/-- `DQNAgent.update_prio` (lines 686-710).  `onp.hstack` raises `ValueError`
when handed an empty list of arrays, which happens exactly when at most two
batches are pending; the exception is modelled by `Except.error`, raised
before any buffer write or queue truncation, as in the source. -/
def updatePrio {P : Type} (cfg : AgentCfg) (s : AgentState P) :
    Except String (AgentState P) :=
  if cfg.use_priority then
    let flushI := s.intermediate_indices.take (s.intermediate_indices.length - 2)
    let flushT := s.intermediate_tds.take (s.intermediate_tds.length - 2)
    if flushT.isEmpty then Except.error "need at least one array to concatenate"
    else
      let inds := memberJoin cfg.num_parallel flushI
      let tds := memberJoin cfg.num_parallel flushT
      Except.ok { s with
        prio_writes := s.prio_writes.enum.map (fun ib =>
          ib.2 ++ [(inds.getD ib.1 [], tds.getD ib.1 [])]),
        intermediate_indices :=
          s.intermediate_indices.drop (s.intermediate_indices.length - 2),
        intermediate_tds :=
          s.intermediate_tds.drop (s.intermediate_tds.length - 2) }
  else Except.ok s

/-- Everything in the agent state except the two RollingHistory fields
`past_obs` and `past_lms`. -/
def sansHistory {P : Type} (s : AgentState P) :=
  (s.online_params, s.trg_params, s.train_step, s.rng,
   s.intermediate_indices, s.intermediate_tds, s.prio_writes, s.experience)

/-- `DQNAgent.change_buffersize` (lines 778-788): the pair of candidate
multipliers the clamp allows for the current capacity. -/
def changeBuffersizeChoices (cur : ℕ) (factor : ℚ) : ℚ × ℚ :=
  if cur ≤ 512 then (factor, 1)
  else if 2 ^ 20 ≤ cur then (1, 1 / factor)
  else (factor, 1 / factor)

/-- The capacity stored by `change_buffersize` (line 786):
`int(buffersize_survivor * random.choice(choices))`, with `random.choice`
modelled by the boolean `pickFirst`.  Python `int()` truncates toward zero,
which is the floor on the nonnegative values the claims quantify over.  (The
final statement of the method, `self.experience.change_size(...)`, would fail
on the list of buffers; the capacity field is assigned before it.) -/
def changeBuffersize (cur : ℕ) (factor : ℚ) (survivor : ℕ) (pickFirst : Bool) : ℕ :=
  let ch := changeBuffersizeChoices cur factor
  (⌊(survivor : ℚ) * (if pickFirst then ch.1 else ch.2)⌋).toNat

/-! ### Proof-support definitions and concrete instances -/

/-- Probability vectors with all mass at index `i`: entry 1 there, 0
elsewhere. -/
def IsOneHot (l : List ℚ) (i : ℕ) : Prop :=
  i < l.length ∧ ∀ j, j < l.length → l[j]? = some (if j = i then 1 else 0)

/-- Lift of "equal apart from the history fields" to the fallible result of
`update_prio`: matching outcomes, with equal cores on success. -/
def sansHistoryRel {P : Type} :
    Except String (AgentState P) → Except String (AgentState P) → Prop
  | Except.error a, Except.error b => a = b
  | Except.ok a, Except.ok b => sansHistory a = sansHistory b
  | _, _ => False

/-- A minimal concrete configuration used in concrete evaluations: learning
enabled, uniform replay, target sync every 2 steps, epsilon-greedy. -/
def cfgPlain : AgentCfg :=
  { fixed_weights := false, use_priority := true, target_update_period := 2,
    use_boltzmann_exploration := false, epsilon := fun _ => 1/10,
    tau := fun _ => 1, num_parallel := 1 }

/-- A parameter step that increments a counter: stands for one gradient update
that visibly changes the online parameters. -/
def stepSucc : ℕ → List (List Transition) → ℕ → ℕ → ℕ := fun _ _ p _ => p + 1

/-- A trivial sampling outcome for concrete evaluations. -/
def sampleNone : ℕ → List (List Transition) → ℕ → ℕ →
    List (List ℕ) × List (List ℚ) :=
  fun _ _ _ _ => ([[0]], [[1/2]])

/-- A freshly constructed single-member agent state (`__init__`): target and
online parameters identical, zero step counter, empty queues. -/
def freshAgent : AgentState ℕ :=
  { online_params := 0, trg_params := 0, train_step := 0, rng := 0,
    past_obs := [], past_lms := [], intermediate_indices := [],
    intermediate_tds := [], prio_writes := [[]], experience := [[]] }

/-- A fresh agent as it looks right after its first `update()` with
prioritized replay: exactly one pending `(sample_indices, td_errors)` batch. -/
def pendingOneAgent : AgentState ℕ :=
  { freshAgent with
    intermediate_indices := [[[0]]]
    intermediate_tds := [[[1/2]]] }

/-- A fresh agent with three pending priority batches. -/
def pendingThreeAgent : AgentState ℕ :=
  { freshAgent with
    intermediate_indices := [[[0]], [[1]], [[2]]]
    intermediate_tds := [[[1/2]], [[1/3]], [[1/4]]] }

/-- The fresh agent with different (nonempty) rolling-history contents. -/
def freshAgentHist : AgentState ℕ :=
  { freshAgent with past_obs := [[1, 2]], past_lms := [[1, 0]] }

/-- A one-transition all-terminal batch with zero reward and zero initial
q-values: its scalar TD error is exactly zero. -/
def c5Batch : List TSample :=
  [{ q_tm1 := [0, 0], a := 0, r := 0, q_t := [5, 3], q_sel := [5, 3],
     term := true }]

/-- A small all-terminal batch for evaluating the terminal-target theorem. -/
def c8Batch : List TSample :=
  [{ q_tm1 := [1, 2], a := 1, r := 3, q_t := [5, 3], q_sel := [4, 7],
     term := true },
   { q_tm1 := [0, 1], a := 0, r := -2, q_t := [1, 1], q_sel := [1, 2],
     term := true }]

/-- An all-terminal categorical batch for the same theorem. -/
def c8CatBatch : List CatSample :=
  [{ probs_tm1_a := [1/2, 1/2], a := 0, r := 3, probs_t := [[1, 0], [0, 1]],
     q_sel := [4, 7], term := true }]

/-! ### Lemmas about the inverse-CDF sampler -/

theorem cumsum_length (l : List ℚ) : (cumsum l).length = l.length := by
  induction l with
  | nil => rfl
  | cons x xs ih => simp [cumsum, ih]

theorem cumsum_getElem? (l : List ℚ) (j : ℕ) (h : j < l.length) :
    (cumsum l)[j]? = some ((l.take (j + 1)).sum) := by
  induction l generalizing j with
  | nil => simp at h
  | cons x xs ih =>
    cases j with
    | zero => simp [cumsum]
    | succ j =>
      simp only [cumsum, List.getElem?_cons_succ, List.getElem?_map]
      rw [ih j (by simpa using h)]
      simp [List.take_succ_cons]

theorem take_sum_succ (l : List ℚ) (j : ℕ) (h : j < l.length) :
    (l.take (j + 1)).sum = (l.take j).sum + l.getD j 0 := by
  rw [List.take_succ, List.sum_append, List.getD_eq_getElem?_getD,
    List.getElem?_eq_getElem h]
  simp

theorem clampLast_length (l : List ℚ) : (clampLast l).length = l.length := by
  simp [clampLast]

theorem clampLast_getElem?_of_lt (l : List ℚ) (j : ℕ) (h : j < l.length - 1) :
    (clampLast l)[j]? = l[j]? := by
  exact List.getElem?_set_ne (Ne.symm (Nat.ne_of_lt h))

theorem clampLast_getElem?_last (l : List ℚ) (h : l ≠ []) :
    (clampLast l)[l.length - 1]? = some 1 := by
  have hlt : l.length - 1 < l.length := by
    have : 0 < l.length := List.length_pos.mpr h
    omega
  simp [clampLast, List.getElem?_set_self hlt]
/-- Core property of `_categorical_sample`: with a well-formed probability
vector and a strictly positive draw below 0.999, the selected index carries
strictly positive probability mass. -/
theorem categoricalSample_pos (probs : List ℚ) (rnd : ℚ)
    (hpos : ∀ p ∈ probs, 0 ≤ p) (hsum : probs.sum = 1)
    (h0 : 0 < rnd) (h1 : rnd < 999/1000) :
    0 < probs.getD (categoricalSample rnd probs) 0 := by
  have hne : probs ≠ [] := by
    rintro rfl
    simp at hsum
  have hn1 : 0 < probs.length := List.length_pos.mpr hne
  set cc := clampLast (cumsum probs) with hcc
  have hlcc : cc.length = probs.length := by
    rw [hcc, clampLast_length, cumsum_length]
  have hlast : cc[probs.length - 1]? = some 1 := by
    have h2 := clampLast_getElem?_last (cumsum probs)
      (by simpa [← List.length_pos, cumsum_length] using hn1)
    rwa [cumsum_length] at h2
  have hex : ∃ x ∈ cc, (fun c => decide (rnd ≤ c)) x = true := by
    refine ⟨1, List.getElem?_mem hlast, by
      simp only [decide_eq_true_eq]
      linarith⟩
  set k := cc.findIdx (fun c => decide (rnd ≤ c)) with hk
  have hklt : k < cc.length := List.findIdx_lt_length.mpr hex
  have hkn : k < probs.length := hlcc ▸ hklt
  have hsel : categoricalSample rnd probs = k := by
    rw [categoricalSample, argminNotGt, ← hcc, ← hk, if_pos hklt]
  have hkle : ∀ v, cc[k]? = some v → rnd ≤ v := by
    intro v hv
    have h3 := List.findIdx_getElem (w := hklt)
    simp only [decide_eq_true_eq] at h3
    have h4 := List.getElem?_eq_getElem hklt
    rw [hv] at h4
    rwa [← Option.some_injective _ h4] at h3
  have hjlt : ∀ j, j < k → ∀ v, cc[j]? = some v → v < rnd := by
    intro j hj v hv
    have hjl : j < cc.length := Nat.lt_trans hj hklt
    have h4 := List.not_of_lt_findIdx (p := fun c => decide (rnd ≤ c))
      (i := j) (by rwa [← hk])
    simp only [decide_eq_false_iff_not, not_le] at h4
    have h5 := List.getElem?_eq_getElem hjl
    rw [hv] at h5
    rwa [← Option.some_injective _ h5] at h4
  have hint : ∀ j, j < probs.length - 1 →
      cc[j]? = some ((probs.take (j + 1)).sum) := by
    intro j hj
    rw [hcc, show clampLast (cumsum probs)
        = (cumsum probs).set ((cumsum probs).length - 1) 1 from rfl,
      List.getElem?_set_ne (by rw [cumsum_length]; omega :
        (cumsum probs).length - 1 ≠ j)]
    exact cumsum_getElem? probs j (by omega)
  rw [hsel]
  have hsum_succ := take_sum_succ probs k hkn
  rcases Nat.eq_zero_or_pos k with hk0 | hkpos
  · -- first index selected: its mass is at least rnd > 0, or the vector is a
    -- singleton of total mass 1
    rw [hk0]
    rcases Nat.lt_or_ge 0 (probs.length - 1) with hcase | hcase
    · have h6 := hint 0 hcase
      have h7 := hkle _ (by rw [hk0]; exact h6)
      have h8 := take_sum_succ probs 0 hn1
      simp only [List.take_zero, List.sum_nil, zero_add] at h8
      linarith
    · -- the vector is a singleton: its entry is the total sum 1
      have hlen1 : probs.length = 1 := by omega
      have h9 : probs.take 1 = probs := by
        rw [← hlen1]
        exact List.take_length probs
      have h8 := take_sum_succ probs 0 hn1
      rw [h9, hsum] at h8
      simp only [List.take_zero, List.sum_nil, zero_add] at h8
      linarith
  · -- an interior or final index: positivity from the strict increase of the
    -- cumulative sums at the selected index
    have hprev := hint (k - 1) (by omega)
    have hprevlt := hjlt (k - 1) (by omega) _ hprev
    rw [Nat.sub_add_cancel hkpos] at hprevlt
    rcases Nat.lt_or_ge k (probs.length - 1) with hcase | hcase
    · have h13 := hint k hcase
      have h14 := hkle _ h13
      linarith
    · -- the selected index is the last one: its mass is 1 minus the previous
      -- cumulative sum, which stays below rnd < 0.999
      have h15 : probs.take (k + 1) = probs := by
        rw [show k + 1 = probs.length by omega]
        exact List.take_length probs
      rw [h15, hsum] at hsum_succ
      linarith

/-! ### One-hot probability vectors and the policies of a single-legal-action
state -/

theorem isOneHot_take_sum (l : List ℚ) (i : ℕ) (h : IsOneHot l i) :
    ∀ j, j < l.length → (l.take (j + 1)).sum = if i ≤ j then 1 else 0 := by
  intro j
  induction j with
  | zero =>
    intro hj
    rw [take_sum_succ l 0 hj, List.getD_eq_getElem?_getD, h.2 0 hj]
    simp only [List.take_zero, List.sum_nil, zero_add, Option.getD_some]
    by_cases hi0 : i = 0
    · simp [hi0]
    · simp [Ne.symm hi0, Nat.le_zero, hi0]
  | succ j ih =>
    intro hj
    rw [take_sum_succ l (j + 1) hj, ih (by omega), List.getD_eq_getElem?_getD,
      h.2 (j + 1) hj]
    simp only [Option.getD_some]
    by_cases h1 : i ≤ j
    · rw [if_pos h1, if_pos (by omega : i ≤ j + 1),
        if_neg (by omega : ¬ j + 1 = i)]
      ring
    · by_cases h2 : i = j + 1
      · rw [if_neg h1, if_pos (by omega : i ≤ j + 1),
          if_pos (by omega : j + 1 = i)]
        ring
      · rw [if_neg h1, if_neg (by omega : ¬ i ≤ j + 1),
          if_neg (by omega : ¬ j + 1 = i)]
        ring

theorem isOneHot_sum (l : List ℚ) (i : ℕ) (h : IsOneHot l i) : l.sum = 1 := by
  have hlen : 0 < l.length := Nat.lt_of_le_of_lt (Nat.zero_le i) h.1
  have h2 := isOneHot_take_sum l i h (l.length - 1) (by omega)
  rw [show l.length - 1 + 1 = l.length by omega, List.take_length l] at h2
  rw [h2, if_pos (by have := h.1; omega : i ≤ l.length - 1)]

/-- The first index with cumulative value at least `rnd` in a 0-1 step vector
that jumps at index `i`. -/
theorem findIdx_of_step (cs : List ℚ) (i : ℕ) (hi : i < cs.length)
    (hchar : ∀ j, j < cs.length → cs[j]? = some (if i ≤ j then 1 else 0))
    (rnd : ℚ) (h0 : 0 < rnd) (h1 : rnd ≤ 1) :
    cs.findIdx (fun x => decide (rnd ≤ x)) = i := by
  rw [List.findIdx_eq hi]
  constructor
  · have h2 := hchar i hi
    rw [List.getElem?_eq_getElem hi] at h2
    have h3 := Option.some_injective _ h2
    simp only [decide_eq_true_eq, h3, if_pos (Nat.le_refl i)]
    exact h1
  · intro j hj
    have hjlen : j < cs.length := Nat.lt_trans hj hi
    have h2 := hchar j hjlen
    rw [List.getElem?_eq_getElem hjlen] at h2
    have h3 := Option.some_injective _ h2
    simp only [decide_eq_false_iff_not, not_le, h3,
      if_neg (by omega : ¬ i ≤ j)]
    exact h0

/-- Both inverse-CDF samplers return the index of the single mass-one entry
whenever the draw is strictly positive and at most 1. -/
theorem sample_isOneHot (pr : List ℚ) (i : ℕ) (h : IsOneHot pr i)
    (rnd : ℚ) (h0 : 0 < rnd) (h1 : rnd ≤ 1) :
    categoricalSample rnd pr = i ∧ rlaxCategoricalSample rnd pr = i := by
  have hlen := h.1
  have hcum : ∀ j, j < (cumsum pr).length →
      (cumsum pr)[j]? = some (if i ≤ j then 1 else 0) := by
    intro j hj
    rw [cumsum_length] at hj
    rw [cumsum_getElem? pr j hj, isOneHot_take_sum pr i h j hj]
  have hclamp : ∀ j, j < (clampLast (cumsum pr)).length →
      (clampLast (cumsum pr))[j]? = some (if i ≤ j then 1 else 0) := by
    intro j hj
    rw [clampLast_length, cumsum_length] at hj
    by_cases hl : j = pr.length - 1
    · subst hl
      have h2 := clampLast_getElem?_last (cumsum pr)
        (by simpa [← List.length_pos, cumsum_length] using
          Nat.lt_of_le_of_lt (Nat.zero_le i) hlen)
      rw [cumsum_length] at h2
      rw [h2, if_pos (by omega : i ≤ pr.length - 1)]
    · rw [clampLast_getElem?_of_lt _ j (by rw [cumsum_length]; omega)]
      exact hcum j (by rw [cumsum_length]; omega)
  constructor
  · have hilt : i < (clampLast (cumsum pr)).length := by
      rw [clampLast_length, cumsum_length]
      exact hlen
    have hf := findIdx_of_step (clampLast (cumsum pr)) i hilt hclamp rnd h0 h1
    rw [categoricalSample, argminNotGt, hf, if_pos hilt]
  · have hilt : i < (cumsum pr).length := by
      rw [cumsum_length]
      exact hlen
    have hf := findIdx_of_step (cumsum pr) i hilt hcum rnd h0 h1
    rw [rlaxCategoricalSample, argminNotGt, hf, if_pos hilt]

theorem wbMax_allBot (l : List (WithBot ℚ)) (h : ∀ y ∈ l, y = ⊥) :
    wbMax l = ⊥ := by
  induction l with
  | nil => rfl
  | cons x xs ih =>
    have hx := h x (by simp)
    have hxs := ih (fun y hy => h y (by simp [hy]))
    rw [wbMax, List.foldr_cons, hx]
    rw [wbMax] at hxs
    rw [hxs]
    simp

/-- The row maximum of a masked row whose only finite entry sits at `i`. -/
theorem wbMax_of_unique (l : List (WithBot ℚ)) (i : ℕ) (v : WithBot ℚ)
    (hi : l[i]? = some v)
    (hothers : ∀ j, j < l.length → j ≠ i → l[j]? = some ⊥) :
    wbMax l = v := by
  induction l generalizing i with
  | nil => simp at hi
  | cons x xs ih =>
    cases i with
    | zero =>
      have hx : x = v := by simpa using hi
      have hxsbot : wbMax xs = ⊥ := by
        apply wbMax_allBot
        intro y hy
        obtain ⟨j, hj, hv⟩ := List.getElem_of_mem hy
        have h2 := hothers (j + 1) (by simpa using Nat.succ_lt_succ hj)
          (by omega)
        rw [List.getElem?_cons_succ, List.getElem?_eq_getElem hj] at h2
        have := Option.some_injective _ h2
        rw [← hv, this]
      rw [wbMax, List.foldr_cons, hx]
      rw [wbMax] at hxsbot
      rw [hxsbot]
      exact max_eq_left bot_le
    | succ i =>
      have hx : x = ⊥ := by
        have h2 := hothers 0 (by simp) (by omega)
        simpa using h2
      have hxs := ih i (by simpa using hi) (fun j hj hne => by
        have h2 := hothers (j + 1) (by simpa using Nat.succ_lt_succ hj)
          (by omega)
        simpa using h2)
      rw [wbMax, List.foldr_cons, hx]
      rw [wbMax] at hxs
      rw [hxs]
      exact max_eq_right bot_le

/-- Entry of the masked q-row, from the mask and q entries. -/
theorem maskQ_getElem? (q : List ℚ) (lms : List Bool) (j : ℕ) (b : Bool) (v : ℚ)
    (hb : lms[j]? = some b) (hv : q[j]? = some v) :
    (maskQ q lms)[j]? = some (if b then (v : WithBot ℚ) else ⊥) := by
  rw [maskQ, List.getElem?_zipWith, hb, hv]

theorem maskQ_length (q : List ℚ) (lms : List Bool) :
    (maskQ q lms).length = min lms.length q.length := by
  rw [maskQ, List.length_zipWith]

/-- With a single legal action, `_argmax_with_random_tie_breaking` of the
masked row is the one-hot vector of that action. -/
theorem argmaxTieBreak_onehot (prefs : List (WithBot ℚ)) (i : ℕ) (v : ℚ)
    (hi : prefs[i]? = some ((v : WithBot ℚ)))
    (hothers : ∀ j, j < prefs.length → j ≠ i → prefs[j]? = some ⊥) :
    IsOneHot (argmaxTieBreakProbs prefs) i := by
  have hmax : wbMax prefs = (v : WithBot ℚ) := wbMax_of_unique prefs i _ hi hothers
  have hilen : i < prefs.length := by
    by_contra hcon
    rw [List.getElem?_eq_none (by omega)] at hi
    simp at hi
  have hoptchar : ∀ j, j < prefs.length →
      (prefs.map (fun p => if p = wbMax prefs then (1 : ℚ) else 0))[j]?
        = some (if j = i then 1 else 0) := by
    intro j hj
    rw [List.getElem?_map]
    by_cases hji : j = i
    · subst hji
      rw [hi]
      simp [hmax]
    · rw [hothers j hj hji]
      simp only [Option.map_some', Option.some.injEq]
      rw [hmax, if_neg (by simp), if_neg hji]
  have hoptone : IsOneHot (prefs.map (fun p => if p = wbMax prefs then (1 : ℚ) else 0)) i :=
    ⟨by rw [List.length_map]; exact hilen, by
      intro j hj
      rw [List.length_map] at hj
      exact hoptchar j hj⟩
  have hsum := isOneHot_sum _ i hoptone
  constructor
  · simp only [argmaxTieBreakProbs, List.length_map]
    exact hilen
  · intro j hj
    simp only [argmaxTieBreakProbs, List.length_map] at hj
    simp only [argmaxTieBreakProbs]
    have h7 := hoptchar j hj
    rw [List.getElem?_map] at h7
    rw [List.getElem?_map, List.getElem?_map, h7]
    simp only [Option.map_some', Option.some.injEq, hsum, div_one]

/-- Mixing a one-hot distribution with the uniform distribution over the same
single legal action leaves it unchanged, for every epsilon. -/
theorem mix_onehot (pr : List ℚ) (i : ℕ) (hone : IsOneHot pr i) (eps : ℚ)
    (lms : List Bool) (hlen : lms.length = pr.length)
    (hi : lms[i]? = some true)
    (huniq : ∀ j, j < lms.length → j ≠ i → lms[j]? = some false) :
    IsOneHot (mixWithLegalUniform pr eps lms) i := by
  have hlegal : IsOneHot (lms.map (fun l => if l then (1 : ℚ) else 0)) i := by
    constructor
    · rw [List.length_map, hlen]
      exact hone.1
    · intro j hj
      rw [List.length_map] at hj
      rw [List.getElem?_map]
      by_cases hji : j = i
      · subst hji
        rw [hi]
        simp
      · rw [huniq j hj hji]
        simp [hji]
  have hlsum := isOneHot_sum _ i hlegal
  constructor
  · simp only [mixWithLegalUniform, List.length_zipWith, List.length_map, hlen,
      min_self]
    exact hone.1
  · intro j hj
    simp only [mixWithLegalUniform, List.length_zipWith, List.length_map, hlen,
      min_self] at hj
    simp only [mixWithLegalUniform]
    rw [List.getElem?_zipWith']
    have hjm : j < (lms.map (fun l => if l then (1 : ℚ) else 0)).length := by
      rw [List.length_map, hlen]
      omega
    rw [List.getElem?_eq_getElem (by omega : j < pr.length),
      List.getElem?_eq_getElem hjm]
    simp only [Option.map_some', Option.some_bind, Option.some.injEq]
    have hpr := hone.2 j (by omega)
    rw [List.getElem?_eq_getElem (by omega : j < pr.length)] at hpr
    have hpr2 := Option.some_injective _ hpr
    have hlg := hlegal.2 j (by rw [List.length_map, hlen]; omega)
    rw [List.getElem?_eq_getElem hjm] at hlg
    have hlg2 := Option.some_injective _ hlg
    rw [hpr2, hlg2, hlsum]
    by_cases hji : j = i
    · rw [if_pos hji]
      ring
    · rw [if_neg hji]
      ring

/-- With a single legal action and a positive temperature, the masked Boltzmann
distribution is the one-hot vector of that action: the exponential is only
ever evaluated at 0, where exp 0 = 1 exactly. -/
theorem boltzmann_onehot (E : ℚ → ℚ) (hE : E 0 = 1) (q : List ℚ)
    (lms : List Bool) (tau : ℚ) (i : ℕ) (hlen : lms.length = q.length)
    (hq : i < q.length)
    (hi : lms[i]? = some true)
    (huniq : ∀ j, j < lms.length → j ≠ i → lms[j]? = some false) :
    IsOneHot (applyLegalBoltzmann E (maskQ q lms) tau lms) i := by
  obtain ⟨vi, hvi⟩ : ∃ v, q[i]? = some v :=
    ⟨q.get ⟨i, hq⟩, List.getElem?_eq_getElem hq⟩
  have hmq : (maskQ q lms)[i]? = some ((vi : WithBot ℚ)) := by
    rw [maskQ_getElem? q lms i true vi hi hvi]
    simp
  have hmqlen : (maskQ q lms).length = lms.length := by
    rw [maskQ_length, hlen, min_self]
  have hmqothers : ∀ j, j < (maskQ q lms).length → j ≠ i →
      (maskQ q lms)[j]? = some ⊥ := by
    intro j hj hji
    rw [hmqlen] at hj
    obtain ⟨w, hw⟩ : ∃ w, q[j]? = some w :=
      ⟨q.get ⟨j, by omega⟩, List.getElem?_eq_getElem (by omega)⟩
    rw [maskQ_getElem? q lms j false w (huniq j hj hji) hw]
    simp
  have hwchar : ∀ j, j < ((maskQ q lms).map (WithBot.map (fun v => v / tau))).length →
      ((maskQ q lms).map (WithBot.map (fun v => v / tau)))[j]?
        = some (if j = i then ((vi / tau : ℚ) : WithBot ℚ) else ⊥) := by
    intro j hj
    rw [List.length_map] at hj
    rw [List.getElem?_map]
    by_cases hji : j = i
    · subst hji
      rw [hmq]
      simp [WithBot.map_coe]
    · rw [hmqothers j hj hji]
      simp [hji]
  have hwmax : wbMax ((maskQ q lms).map (WithBot.map (fun v => v / tau)))
      = ((vi / tau : ℚ) : WithBot ℚ) := by
    apply wbMax_of_unique _ i
    · have h2 := hwchar i (by rw [List.length_map, hmqlen, hlen]; omega)
      rw [h2, if_pos rfl]
    · intro j hj hji
      rw [hwchar j hj, if_neg hji]
  have hblen : (List.zipWith
      (fun l w => if l then E (unbot0 w - unbot0 (wbMax
        ((maskQ q lms).map (WithBot.map (fun v => v / tau))))) else 0) lms
      ((maskQ q lms).map (WithBot.map (fun v => v / tau)))).length = lms.length := by
    rw [List.length_zipWith, List.length_map, hmqlen, min_self]
  have hbchar : ∀ j, j < lms.length →
      (List.zipWith
        (fun l w => if l then E (unbot0 w - unbot0 (wbMax
          ((maskQ q lms).map (WithBot.map (fun v => v / tau))))) else 0) lms
        ((maskQ q lms).map (WithBot.map (fun v => v / tau))))[j]?
        = some (if j = i then 1 else 0) := by
    intro j hj
    rw [List.getElem?_zipWith']
    have hjw : j < ((maskQ q lms).map (WithBot.map (fun v => v / tau))).length := by
      rw [List.length_map, hmqlen]
      omega
    rw [List.getElem?_eq_getElem hj, List.getElem?_eq_getElem hjw]
    simp only [Option.map_some', Option.some_bind, Option.some.injEq]
    have hw := hwchar j hjw
    rw [List.getElem?_eq_getElem hjw] at hw
    have hw2 := Option.some_injective _ hw
    by_cases hji : j = i
    · subst hji
      have hl := hi
      rw [List.getElem?_eq_getElem hj] at hl
      have hl2 := Option.some_injective _ hl
      rw [hw2, hl2, hwmax]
      simp [unbot0, hE]
    · have hl := huniq j hj hji
      rw [List.getElem?_eq_getElem hj] at hl
      have hl2 := Option.some_injective _ hl
      rw [hw2, hl2]
      simp [hji]
  have hbone : IsOneHot (List.zipWith
      (fun l w => if l then E (unbot0 w - unbot0 (wbMax
        ((maskQ q lms).map (WithBot.map (fun v => v / tau))))) else 0) lms
      ((maskQ q lms).map (WithBot.map (fun v => v / tau)))) i := by
    constructor
    · rw [hblen, hlen]
      exact hq
    · intro j hj
      rw [hblen] at hj
      exact hbchar j hj
  have hbsum := isOneHot_sum _ i hbone
  constructor
  · simp only [applyLegalBoltzmann, List.length_map]
    exact hbone.1
  · intro j hj
    simp only [applyLegalBoltzmann, List.length_map] at hj
    simp only [applyLegalBoltzmann]
    rw [List.getElem?_map, hbone.2 j hj]
    simp only [Option.map_some', Option.some.injEq, hbsum, div_one]

theorem argmaxTieBreak_length (prefs : List (WithBot ℚ)) :
    (argmaxTieBreakProbs prefs).length = prefs.length := by
  simp [argmaxTieBreakProbs]

/-! ### Claim theorems -/

/-- C1 counterexample: with two atoms 0 and 2 and the uniform softmax output,
the q-value computed by policy and eval_policy (jnp.mean of probs times atoms)
is 1/2, while the expectation of the distribution over the support is 1. -/
theorem c1_counterexample :
    qFromDist [1/2, 1/2] [0, 2] ≠ qFromDistSpec [1/2, 1/2] [0, 2] := by
  norm_num [qFromDist, qFromDistSpec]

/-- C1 (amended): in distributional mode the per-action q-value computed by
policy and eval_policy equals the expectation of the categorical distribution
over the atom support divided by the number of atoms (jnp.mean over the atom
axis rather than the sum); a positive rescaling that leaves the subsequent
argmax unchanged. -/
theorem c1_q_is_scaled_expectation (probs atoms : List ℚ)
    (h : probs.length = atoms.length) :
    qFromDist probs atoms = qFromDistSpec probs atoms / (atoms.length : ℚ) := by
  rw [qFromDist, qFromDistSpec, List.length_zipWith, h, min_self]

theorem c1_q_is_scaled_expectation_witness :
    qFromDist [1/2, 1/2] [0, 2]
      = qFromDistSpec [1/2, 1/2] [0, 2] / (([0, 2] : List ℚ).length : ℚ) :=
  c1_q_is_scaled_expectation [1/2, 1/2] [0, 2] (by decide)

/-- C2 counterexample: scaling the gradient by the stored learning rate before
the adam update rule (the order the claim states) gives a different parameter
step than the code, which runs the optimizer on the raw gradient and scales
the optimizer output afterwards.  Evaluated at the first step from a fresh
optimizer state with gradient 1 and stored rate -2. -/
theorem c2_counterexample :
    (updateQParamStep (-2) 0 1 ⟨0, 0, 0⟩).1 ≠ (updateQParamStepSpec (-2) 0 1 ⟨0, 0, 0⟩).1 := by
  have h1 : Rat.sqrt 1 = 1 := by
    rw [show (1 : ℚ) = 1 * 1 by norm_num, Rat.sqrt_eq]
    norm_num
  have h4 : Rat.sqrt 4 = 2 := by
    rw [show (4 : ℚ) = 2 * 2 by norm_num, Rat.sqrt_eq]
    norm_num
  simp only [updateQParamStep, updateQParamStepSpec, customAdamUpdate,
    scaleByAdamUpdate, applyLr]
  norm_num [h1, h4]

/-- C2 (amended): in update_q the raw gradient goes through the optimizer
update rule first, the optimizer output is then scaled by the stored (possibly
negative) learning rate via apply_lr, and the result is applied additively to
the parameters; the stored learning-rate vector is exactly the elementwise
negation of the configured rates. -/
theorem c2_scale_after_optimizer :
    (∀ (lr p g : ℚ) (st : AdamState),
      updateQParamStep lr p g st
        = (p + lr * (customAdamUpdate g st).1, (customAdamUpdate g st).2))
    ∧ ∀ (lrs : List ℚ) (j : ℕ), (storedLr lrs).getD j 0 = -(lrs.getD j 0) := by
  constructor
  · intro lr p g st
    rfl
  · intro lrs j
    rw [storedLr, List.getD_eq_getElem?_getD, List.getD_eq_getElem?_getD,
      List.getElem?_map]
    cases h : lrs[j]? with
    | none => simp
    | some v => simp

/-- C5 counterexample: a terminal transition with zero reward and zero
q-values has a TD error of exactly 0, so the new priority sqrt(td^2) returned
by update_q is 0, not strictly positive. -/
theorem c5Batch_prios_eval :
    newPriosScalar (q_td (9/10) c5Batch) = [Rat.sqrt 0] := by
  simp only [newPriosScalar, q_td, c5Batch, List.map_cons, List.map_nil]
  norm_num [qLearningTd, qLearningTarget, discountWhere]

theorem sqrt_zero_eval : Rat.sqrt 0 = 0 := by
  rw [show (0 : ℚ) = 0 * 0 by norm_num, Rat.sqrt_eq]
  norm_num

theorem c5_counterexample :
    ¬ (∀ p ∈ newPriosScalar (q_td (9/10) c5Batch), 0 < p) := by
  intro h
  have h2 := h (Rat.sqrt 0)
    (by rw [c5Batch_prios_eval]; exact List.mem_singleton_self _)
  rw [sqrt_zero_eval] at h2
  exact lt_irrefl 0 h2

/-- C5 (amended): every priority produced by update_q is nonnegative: the
scalar variants return sqrt of the squared TD error, which equals the absolute
TD error and vanishes exactly when the TD error does; the distributional
variants return an absolute value. -/
theorem c5_priorities_nonneg :
    (∀ (loss : List ℚ) (p : ℚ), p ∈ newPriosScalar loss → 0 ≤ p)
    ∧ (∀ (loss : List ℚ) (p : ℚ), p ∈ newPriosDistributional loss → 0 ≤ p)
    ∧ ∀ (discount : ℚ) (batch : List TSample),
        newPriosScalar (q_td discount batch)
          = batch.map (fun s =>
              |qLearningTd s.q_tm1 s.a s.r (discountWhere s.term discount) s.q_t|) := by
  refine ⟨?_, ?_, ?_⟩
  · intro loss p hp
    rw [newPriosScalar] at hp
    obtain ⟨x, hx, hxp⟩ := List.mem_map.mp hp
    rw [← hxp]
    exact Rat.sqrt_nonneg x
  · intro loss p hp
    rw [newPriosDistributional] at hp
    obtain ⟨x, hx, hxp⟩ := List.mem_map.mp hp
    rw [← hxp]
    exact abs_nonneg x
  · intro discount batch
    rw [newPriosScalar, q_td, List.map_map]
    refine List.map_congr_left ?_
    intro s hs
    simp only [Function.comp_apply]
    rw [pow_two, Rat.sqrt_eq]

theorem c5_priorities_nonneg_witness :
    0 ≤ (newPriosScalar (q_td (9/10) c5Batch)).getD 0 1 := by
  refine c5_priorities_nonneg.1 (q_td (9/10) c5Batch) _ ?_
  rw [c5Batch_prios_eval]
  simp

/-- With a threshold of exactly 0 and a nonnegative first entry, the clamped
sampler always returns index 0: the first cumulative entry already reaches the
threshold. -/
theorem categoricalSample_zero_of_head_nonneg (p0 : ℚ) (ps : List ℚ)
    (hp0 : 0 ≤ p0) (hne : ps ≠ []) :
    categoricalSample 0 (p0 :: ps) = 0 := by
  obtain ⟨k, hk⟩ : ∃ k, ps.length = k + 1 :=
    ⟨ps.length - 1, by have := List.length_pos.mpr hne; omega⟩
  have hc : clampLast (cumsum (p0 :: ps))
      = p0 :: ((cumsum ps).map (fun y => p0 + y)).set k 1 := by
    rw [show cumsum (p0 :: ps) = p0 :: (cumsum ps).map (fun y => p0 + y) from rfl,
      clampLast]
    simp only [List.length_cons, cumsum_length, List.length_map, hk,
      Nat.add_sub_cancel]
    rw [List.set_cons_succ]
  rw [categoricalSample, hc, argminNotGt]
  have hfi : (p0 :: ((cumsum ps).map (fun y => p0 + y)).set k 1).findIdx
      (fun cv => decide ((0 : ℚ) ≤ cv)) = 0 := by
    rw [List.findIdx_cons, decide_eq_true hp0]
    rfl
  rw [hfi]
  simp

/-- C6 counterexample: a draw of exactly 0 lies in the range [0, 0.999) that
the source requests, and on the well-formed vector [0, 1] the sampler then
returns index 0, whose probability mass is exactly zero. -/
theorem c6_counterexample :
    (∀ p ∈ [(0 : ℚ), 1], 0 ≤ p) ∧ List.sum [(0 : ℚ), 1] = 1
    ∧ (0 : ℚ) ≤ 0 ∧ (0 : ℚ) < 999/1000
    ∧ categoricalSample 0 [0, 1] = 0
    ∧ [(0 : ℚ), 1].getD (categoricalSample 0 [0, 1]) 0 = 0 := by
  have hcs : categoricalSample 0 [(0 : ℚ), 1] = 0 :=
    categoricalSample_zero_of_head_nonneg 0 [1] (le_refl 0) (by simp)
  refine ⟨?_, by norm_num, le_refl 0, by norm_num, hcs, ?_⟩
  · intro p hp
    simp only [List.mem_cons, List.not_mem_nil, or_false] at hp
    rcases hp with rfl | rfl <;> norm_num
  · rw [hcs]
    simp

/-- C6 (amended): _categorical_sample clamps the last cumulative-probability
entry to exactly 1 before thresholding, and for every well-formed probability
vector it never returns an action of zero probability mass provided the
uniform draw from [0, 0.999) is strictly positive (at a draw of exactly 0 a
leading zero-mass action can be selected, see the counterexample). -/
theorem c6_clamped_sampler_hits_positive_mass (probs : List ℚ) (rnd : ℚ)
    (hpos : ∀ p ∈ probs, 0 ≤ p) (hsum : probs.sum = 1)
    (h0 : 0 < rnd) (h1 : rnd < 999/1000) :
    (clampLast (cumsum probs))[probs.length - 1]? = some 1
    ∧ 0 < probs.getD (categoricalSample rnd probs) 0 := by
  constructor
  · have hne : probs ≠ [] := by
      rintro rfl
      simp at hsum
    have h2 := clampLast_getElem?_last (cumsum probs)
      (by simpa [← List.length_pos, cumsum_length] using List.length_pos.mpr hne)
    rwa [cumsum_length] at h2
  · exact categoricalSample_pos probs rnd hpos hsum h0 h1

theorem c6_clamped_sampler_witness :
    (clampLast (cumsum [(1 : ℚ)/2, 1/2]))[([(1 : ℚ)/2, 1/2].length - 1)]? = some 1
    ∧ 0 < [(1 : ℚ)/2, 1/2].getD (categoricalSample (1/2) [(1 : ℚ)/2, 1/2]) 0 :=
  c6_clamped_sampler_hits_positive_mass [(1 : ℚ)/2, 1/2] (1/2)
    (by
      intro p hp
      simp only [List.mem_cons, List.not_mem_nil, or_false] at hp
      rcases hp with rfl | rfl <;> norm_num)
    (by norm_num) (by norm_num) (by norm_num)

/-- C7 counterexample: with legal mask [false, true] (single legal action 1),
q-values [5, 7] and a draw of exactly 0, the epsilon-greedy policy returns
action 0, which is illegal. -/
theorem c7_counterexample :
    ([false, true][1]? = some true)
    ∧ (∀ j, j < 2 → j ≠ 1 → [false, true][j]? = some false)
    ∧ policyAction (fun _ => 1) false [5, 7] [false, true] (1/10) 2 0 = 0 := by
  refine ⟨by decide, by decide, ?_⟩
  have hmask : maskQ [5, 7] [false, true] = [⊥, ((7 : ℚ) : WithBot ℚ)] := by
    simp [maskQ]
  have hmax : wbMax [⊥, ((7 : ℚ) : WithBot ℚ)] = ((7 : ℚ) : WithBot ℚ) := by
    rw [wbMax, List.foldr_cons, List.foldr_cons, List.foldr_nil]
    rw [max_eq_left bot_le, max_eq_right bot_le]
  have hgr : argmaxTieBreakProbs [⊥, ((7 : ℚ) : WithBot ℚ)] = [0, 1] := by
    simp only [argmaxTieBreakProbs, hmax, List.map_cons, List.map_nil]
    norm_num
  have hmix : mixWithLegalUniform [0, 1] (1/10) [false, true] = [0, 1] := by
    simp only [mixWithLegalUniform, List.map_cons, List.map_nil]
    norm_num
  simp only [policyAction, Bool.false_eq_true, if_false]
  rw [hmask, hgr, hmix]
  exact categoricalSample_zero_of_head_nonneg 0 [1] (le_refl 0) (by simp)

/-- C7 (amended): with exactly one legal action i, the stochastic policy (both
the epsilon-greedy and the Boltzmann branch, for every epsilon and every
positive temperature) and the deterministic eval policy return i whenever the
uniform draw is strictly positive (a draw of exactly 0 can select an illegal
action, see the counterexample).  The exponential E of the Boltzmann branch is
only evaluated at 0, where exp 0 = 1 exactly. -/
theorem c7_single_legal_action (E : ℚ → ℚ) (hE : E 0 = 1) (q : List ℚ)
    (lms : List Bool) (i : ℕ) (hlen : lms.length = q.length) (hq : i < q.length)
    (hi : lms[i]? = some true)
    (huniq : ∀ j, j < lms.length → j ≠ i → lms[j]? = some false)
    (eps tau : ℚ) (htau : 0 < tau) (useSoftmax : Bool)
    (rnd rndE : ℚ) (h0 : 0 < rnd) (h1 : rnd < 999/1000)
    (h0E : 0 < rndE) (h1E : rndE < 1) :
    policyAction E useSoftmax q lms eps tau rnd = i
    ∧ evalPolicyAction q lms rndE = i := by
  obtain ⟨vi, hvi⟩ : ∃ v, q[i]? = some v :=
    ⟨q.get ⟨i, hq⟩, List.getElem?_eq_getElem hq⟩
  have hmq : (maskQ q lms)[i]? = some ((vi : WithBot ℚ)) := by
    rw [maskQ_getElem? q lms i true vi hi hvi]
    simp
  have hmqlen : (maskQ q lms).length = lms.length := by
    rw [maskQ_length, hlen, min_self]
  have hmqothers : ∀ j, j < (maskQ q lms).length → j ≠ i →
      (maskQ q lms)[j]? = some ⊥ := by
    intro j hj hji
    rw [hmqlen] at hj
    obtain ⟨w, hw⟩ : ∃ w, q[j]? = some w :=
      ⟨q.get ⟨j, by omega⟩, List.getElem?_eq_getElem (by omega)⟩
    rw [maskQ_getElem? q lms j false w (huniq j hj hji) hw]
    simp
  have hgreedy : IsOneHot (argmaxTieBreakProbs (maskQ q lms)) i :=
    argmaxTieBreak_onehot _ i vi hmq hmqothers
  constructor
  · simp only [policyAction]
    cases useSoftmax with
    | true =>
      simp only [if_true]
      have hone := boltzmann_onehot E hE q lms tau i hlen hq hi huniq
      exact (sample_isOneHot _ i hone rnd h0 (by linarith)).1
    | false =>
      simp only [Bool.false_eq_true, if_false]
      have hone := mix_onehot _ i hgreedy eps lms
        (by rw [argmaxTieBreak_length, hmqlen]) hi huniq
      exact (sample_isOneHot _ i hone rnd h0 (by linarith)).1
  · rw [evalPolicyAction]
    exact (sample_isOneHot _ i hgreedy rndE h0E (le_of_lt h1E)).2

theorem c7_single_legal_action_witness :
    policyAction (fun _ => 1) false [5, 7] [false, true] (1/10) 2 (1/2) = 1
    ∧ evalPolicyAction [5, 7] [false, true] (1/2) = 1 :=
  c7_single_legal_action (fun _ => 1) rfl [5, 7] [false, true] 1 rfl
    (by decide) (by decide) (by decide) (1/10) 2 (by norm_num) false (1/2) (1/2)
    (by norm_num) (by norm_num) (by norm_num) (by norm_num)

/-- C8: on a batch in which every transition is terminal, all four TD-loss
variants of update_q replace the discount by zero, so the scalar TD targets
reduce to the immediate reward (and the TD error to reward minus the online
value of the taken action), the categorical target support collapses to the
constant reward with no bootstrap contribution, and both categorical batch
losses coincide with the losses computed at discount zero. -/
theorem c8_terminal_reduces_targets (discount : ℚ) (atoms : List ℚ) (L : ℚ → ℚ)
    (batch : List TSample) (cbatch : List CatSample)
    (hterm : ∀ s ∈ batch, s.term = true)
    (hcterm : ∀ s ∈ cbatch, s.term = true) :
    q_td discount batch = batch.map (fun s => (s.r - s.q_tm1.getD s.a 0) ^ 2)
    ∧ double_q_td discount batch
        = batch.map (fun s => (s.r - s.q_tm1.getD s.a 0) ^ 2)
    ∧ (∀ s ∈ batch, qLearningTarget s.r (discountWhere s.term discount) s.q_t = s.r)
    ∧ (∀ s ∈ batch,
        doubleQTarget s.r (discountWhere s.term discount) s.q_t s.q_sel = s.r)
    ∧ (∀ s ∈ cbatch, categoricalTargetZ s.r (discountWhere s.term discount) atoms
        = List.replicate atoms.length s.r)
    ∧ categorical_q_td L atoms discount cbatch
        = cbatch.map (fun s => categoricalQTd L atoms s.probs_tm1_a s.r 0 s.probs_t)
    ∧ categorical_double_q_td L atoms discount cbatch
        = cbatch.map (fun s =>
            categoricalDoubleQTd L atoms s.probs_tm1_a s.r 0 s.probs_t s.q_sel) := by
  refine ⟨?_, ?_, ?_, ?_, ?_, ?_, ?_⟩
  · rw [q_td]
    refine List.map_congr_left ?_
    intro s hs
    rw [hterm s hs]
    simp [discountWhere, qLearningTd, qLearningTarget]
  · rw [double_q_td]
    refine List.map_congr_left ?_
    intro s hs
    rw [hterm s hs]
    simp [discountWhere, doubleQTd, doubleQTarget]
  · intro s hs
    rw [hterm s hs]
    simp [discountWhere, qLearningTarget]
  · intro s hs
    rw [hterm s hs]
    simp [discountWhere, doubleQTarget]
  · intro s hs
    rw [hcterm s hs]
    simp [discountWhere, categoricalTargetZ, List.map_const']
  · rw [categorical_q_td]
    refine List.map_congr_left ?_
    intro s hs
    rw [hcterm s hs]
    rfl
  · rw [categorical_double_q_td]
    refine List.map_congr_left ?_
    intro s hs
    rw [hcterm s hs]
    rfl

/-- C9 counterexample: with current capacity 512, survivor capacity 512 and
factor 2, the non-growing choice leaves the capacity at 512, so a capacity of
at most 512 does not strictly increase. -/
theorem c9_counterexample :
    ¬ (512 < changeBuffersize 512 2 512 false) := by
  have h : changeBuffersize 512 2 512 false = 512 := by
    rw [changeBuffersize, changeBuffersizeChoices, if_pos (by norm_num : (512 : ℕ) ≤ 512)]
    norm_num
    decide
  rw [h]
  omega

/-- C9 (amended): the clamp restricts the candidate multipliers, and the new
capacity is int(survivor * multiplier); the growth or shrink direction holds
relative to the survivor capacity, not the current one: for factor > 1 a
member at capacity at most 512 receives at least the survivor capacity, and a
member at capacity at least 2^20 receives at most the survivor capacity. -/
theorem c9_clamped_multipliers (cur : ℕ) (factor : ℚ) (survivor : ℕ)
    (pickFirst : Bool) (hf : 1 < factor) :
    (cur ≤ 512 → survivor ≤ changeBuffersize cur factor survivor pickFirst)
    ∧ (2 ^ 20 ≤ cur → changeBuffersize cur factor survivor pickFirst ≤ survivor)
    ∧ (cur ≤ 512 → changeBuffersizeChoices cur factor = (factor, 1))
    ∧ (2 ^ 20 ≤ cur → changeBuffersizeChoices cur factor = (1, 1 / factor)) := by
  have hs0 : (0 : ℚ) ≤ (survivor : ℚ) := Nat.cast_nonneg survivor
  have hpow : (2 : ℕ) ^ 20 = 1048576 := by norm_num
  refine ⟨?_, ?_, ?_, ?_⟩
  · intro h512
    rw [changeBuffersize, changeBuffersizeChoices, if_pos h512]
    cases pickFirst with
    | true =>
      simp only [if_true]
      have h1 : (survivor : ℚ) ≤ (survivor : ℚ) * factor := by
        nlinarith
      have h2 : (survivor : ℤ) ≤ ⌊(survivor : ℚ) * factor⌋ := by
        rw [Int.le_floor]
        push_cast
        exact h1
      omega
    | false =>
      simp only [Bool.false_eq_true, if_false]
      have h2 : (survivor : ℤ) ≤ ⌊(survivor : ℚ) * 1⌋ := by
        rw [Int.le_floor]
        push_cast
        linarith
      omega
  · intro h2p
    have hn512 : ¬ cur ≤ 512 := by omega
    rw [changeBuffersize, changeBuffersizeChoices, if_neg hn512, if_pos h2p]
    cases pickFirst with
    | true =>
      simp only [if_true]
      have h2 : ⌊(survivor : ℚ) * 1⌋ ≤ (survivor : ℤ) := by
        rw [mul_one, Int.floor_natCast]
      omega
    | false =>
      simp only [Bool.false_eq_true, if_false]
      have h1 : (survivor : ℚ) * (1 / factor) ≤ (survivor : ℚ) := by
        have hfpos : 0 < factor := by linarith
        have : 1 / factor ≤ 1 := by
          rw [div_le_one hfpos]
          linarith
        nlinarith
      have h2 : ⌊(survivor : ℚ) * (1 / factor)⌋ ≤ (survivor : ℤ) := by
        calc ⌊(survivor : ℚ) * (1 / factor)⌋ ≤ ⌊(survivor : ℚ)⌋ :=
              Int.floor_le_floor h1
          _ = (survivor : ℤ) := Int.floor_natCast survivor
      omega
  · intro h512
    rw [changeBuffersizeChoices, if_pos h512]
  · intro h2p
    have hn512 : ¬ cur ≤ 512 := by omega
    rw [changeBuffersizeChoices, if_neg hn512, if_pos h2p]

theorem c9_clamped_multipliers_witness :
    7 ≤ changeBuffersize 100 2 7 true ∧ changeBuffersize (2 ^ 20) 2 7 false ≤ 7 :=
  ⟨(c9_clamped_multipliers 100 2 7 true (by norm_num)).1 (by norm_num),
   (c9_clamped_multipliers (2 ^ 20) 2 7 false (by norm_num)).2.1 (by norm_num)⟩

theorem c8_terminal_reduces_targets_witness :
    q_td (9/10) c8Batch = c8Batch.map (fun s => (s.r - s.q_tm1.getD s.a 0) ^ 2)
    ∧ double_q_td (9/10) c8Batch
        = c8Batch.map (fun s => (s.r - s.q_tm1.getD s.a 0) ^ 2)
    ∧ (∀ s ∈ c8Batch, qLearningTarget s.r (discountWhere s.term (9/10)) s.q_t = s.r)
    ∧ (∀ s ∈ c8Batch,
        doubleQTarget s.r (discountWhere s.term (9/10)) s.q_t s.q_sel = s.r)
    ∧ (∀ s ∈ c8CatBatch, categoricalTargetZ s.r (discountWhere s.term (9/10)) [0, 2]
        = List.replicate ([0, 2] : List ℚ).length s.r)
    ∧ categorical_q_td (fun x => x) [0, 2] (9/10) c8CatBatch
        = c8CatBatch.map (fun s =>
            categoricalQTd (fun x => x) [0, 2] s.probs_tm1_a s.r 0 s.probs_t)
    ∧ categorical_double_q_td (fun x => x) [0, 2] (9/10) c8CatBatch
        = c8CatBatch.map (fun s =>
            categoricalDoubleQTd (fun x => x) [0, 2] s.probs_tm1_a s.r 0
              s.probs_t s.q_sel) :=
  c8_terminal_reduces_targets (9/10) [0, 2] (fun x => x) c8Batch c8CatBatch
    (by decide) (by decide)

theorem agentUpdate_train_step {P : Type} (cfg : AgentCfg)
    (stepP : ℕ → List (List Transition) → P → P → P)
    (sampleF : ℕ → List (List Transition) → P → P → List (List ℕ) × List (List ℚ))
    (s : AgentState P) (hfw : cfg.fixed_weights = false) :
    (agentUpdate cfg stepP sampleF s).train_step = s.train_step + 1 := by
  simp only [agentUpdate, hfw, Bool.false_eq_true, if_false]

theorem agentUpdate_sync {P : Type} (cfg : AgentCfg)
    (stepP : ℕ → List (List Transition) → P → P → P)
    (sampleF : ℕ → List (List Transition) → P → P → List (List ℕ) × List (List ℚ))
    (s : AgentState P) (hfw : cfg.fixed_weights = false)
    (hdiv : s.train_step % cfg.target_update_period = 0) :
    (agentUpdate cfg stepP sampleF s).trg_params
      = (agentUpdate cfg stepP sampleF s).online_params := by
  simp only [agentUpdate, hfw, Bool.false_eq_true, if_false]
  rw [if_pos hdiv]

theorem agentUpdate_skip {P : Type} (cfg : AgentCfg)
    (stepP : ℕ → List (List Transition) → P → P → P)
    (sampleF : ℕ → List (List Transition) → P → P → List (List ℕ) × List (List ℚ))
    (s : AgentState P) (hfw : cfg.fixed_weights = false)
    (hdiv : ¬ s.train_step % cfg.target_update_period = 0) :
    (agentUpdate cfg stepP sampleF s).trg_params = s.trg_params := by
  simp only [agentUpdate, hfw, Bool.false_eq_true, if_false]
  rw [if_neg hdiv]

theorem agentUpdateIter_train_step {P : Type} (cfg : AgentCfg)
    (stepP : ℕ → List (List Transition) → P → P → P)
    (sampleF : ℕ → List (List Transition) → P → P → List (List ℕ) × List (List ℚ))
    (s0 : AgentState P) (hfw : cfg.fixed_weights = false)
    (h0 : s0.train_step = 0) :
    ∀ n, (agentUpdateIter cfg stepP sampleF n s0).train_step = n := by
  intro n
  induction n with
  | zero => simpa [agentUpdateIter] using h0
  | succ n ih =>
    rw [agentUpdateIter, agentUpdate_train_step cfg stepP sampleF _ hfw, ih]

/-- C3 counterexample: with target_update_period = 2 on a fresh agent whose
online parameters change every step, after exactly 2 calls to update() the
target parameters differ from the online parameters: the only sync so far
happened during the first call, whose pre-increment train_step 0 is already
divisible by the period. -/
theorem c3_counterexample :
    (agentUpdateIter cfgPlain stepSucc sampleNone 2 freshAgent).trg_params
      ≠ (agentUpdateIter cfgPlain stepSucc sampleNone 2 freshAgent).online_params := by
  decide

/-- C3 (amended): with learning enabled, the hard target sync happens during
the calls whose pre-increment train_step is divisible by the period, i.e. on
the 1st, (period+1)-st, (2 period+1)-st, ... call: right after the first and
the (period+1)-st call the target equals the online parameters, and any call
whose pre-increment step is not a multiple of the period leaves the target
parameters byte-identical, however the online parameters change. -/
theorem c3_sync_schedule {P : Type} (cfg : AgentCfg)
    (stepP : ℕ → List (List Transition) → P → P → P)
    (sampleF : ℕ → List (List Transition) → P → P → List (List ℕ) × List (List ℚ))
    (s0 : AgentState P) (hfw : cfg.fixed_weights = false)
    (hper : 0 < cfg.target_update_period) (h0 : s0.train_step = 0) :
    ((agentUpdateIter cfg stepP sampleF (cfg.target_update_period + 1) s0).trg_params
      = (agentUpdateIter cfg stepP sampleF
          (cfg.target_update_period + 1) s0).online_params)
    ∧ ((agentUpdateIter cfg stepP sampleF 1 s0).trg_params
      = (agentUpdateIter cfg stepP sampleF 1 s0).online_params)
    ∧ ∀ n, ¬ (n % cfg.target_update_period = 0) →
        (agentUpdateIter cfg stepP sampleF (n + 1) s0).trg_params
          = (agentUpdateIter cfg stepP sampleF n s0).trg_params := by
  refine ⟨?_, ?_, ?_⟩
  · rw [agentUpdateIter]
    apply agentUpdate_sync cfg stepP sampleF _ hfw
    rw [agentUpdateIter_train_step cfg stepP sampleF s0 hfw h0]
    exact Nat.mod_self _
  · rw [agentUpdateIter, agentUpdateIter]
    apply agentUpdate_sync cfg stepP sampleF _ hfw
    rw [h0]
    exact Nat.zero_mod _
  · intro n hn
    rw [agentUpdateIter]
    apply agentUpdate_skip cfg stepP sampleF _ hfw
    rw [agentUpdateIter_train_step cfg stepP sampleF s0 hfw h0]
    exact hn

theorem c3_sync_schedule_witness :
    ((agentUpdateIter cfgPlain stepSucc sampleNone 3 freshAgent).trg_params
      = (agentUpdateIter cfgPlain stepSucc sampleNone 3 freshAgent).online_params)
    ∧ (agentUpdateIter cfgPlain stepSucc sampleNone 2 freshAgent).trg_params
      = (agentUpdateIter cfgPlain stepSucc sampleNone 1 freshAgent).trg_params := by
  have h := c3_sync_schedule cfgPlain stepSucc sampleNone freshAgent rfl
    (by decide) rfl
  exact ⟨h.1, h.2.2 1 (by decide)⟩

/-- C4: with prioritized replay enabled and at most two pending batches, the
slice indices[:-2] is empty and onp.hstack raises ValueError before any buffer
write or queue truncation: update_prio does not complete on such states, which
arise on the first two training steps of every run.  Evaluated on an agent
holding exactly one pending batch. -/
theorem c4_hstack_empty_error :
    updatePrio cfgPlain pendingOneAgent
      = Except.error "need at least one array to concatenate" := by
  rfl

/-- The intended flush on a queue of three pending batches: the oldest entry
is written to the member buffer and the queues keep the two most recent
entries. -/
theorem updatePrio_three_pending_eval :
    updatePrio cfgPlain pendingThreeAgent
      = Except.ok { pendingThreeAgent with
          prio_writes := [[([0], [1/2])]]
          intermediate_indices := [[[1]], [[2]]]
          intermediate_tds := [[[1/3]], [[1/4]]] } := by
  rfl

/-- C10: the rolling-history buffers past_obs and past_lms are write-only:
any two agent states that agree on everything except those two fields produce
identical actions and identical successor states apart from those two fields,
under explore, exploit (both modes), add_experience, update and update_prio. -/
theorem c10_history_noninterference {P : Type} (E : ℚ → ℚ) (theta : ℕ → ℚ)
    (netQ : P → List ℚ → List ℚ) (cfg : AgentCfg)
    (stepP : ℕ → List (List Transition) → P → P → P)
    (sampleF : ℕ → List (List Transition) → P → P → List (List ℕ) × List (List ℚ))
    (obs : List ObsIn) (batch : List Transition) (ev : Bool)
    (s1 s2 : AgentState P) (h : sansHistory s1 = sansHistory s2) :
    (explore E theta netQ cfg obs s1).1 = (explore E theta netQ cfg obs s2).1
    ∧ sansHistory (explore E theta netQ cfg obs s1).2
        = sansHistory (explore E theta netQ cfg obs s2).2
    ∧ (exploit theta netQ ev obs s1).1 = (exploit theta netQ ev obs s2).1
    ∧ sansHistory (exploit theta netQ ev obs s1).2
        = sansHistory (exploit theta netQ ev obs s2).2
    ∧ sansHistory (addExperience cfg batch s1)
        = sansHistory (addExperience cfg batch s2)
    ∧ sansHistory (agentUpdate cfg stepP sampleF s1)
        = sansHistory (agentUpdate cfg stepP sampleF s2)
    ∧ sansHistoryRel (updatePrio cfg s1) (updatePrio cfg s2) := by
  obtain ⟨o1, t1, ts1, r1, po1, pl1, ii1, it1, pw1, ex1⟩ := s1
  obtain ⟨o2, t2, ts2, r2, po2, pl2, ii2, it2, pw2, ex2⟩ := s2
  simp only [sansHistory, Prod.mk.injEq] at h
  obtain ⟨h1, h2, h3, h4, h5, h6, h7, h8⟩ := h
  subst h1
  subst h2
  subst h3
  subst h4
  subst h5
  subst h6
  subst h7
  subst h8
  refine ⟨rfl, rfl, ?_, ?_, rfl, ?_, ?_⟩
  · cases ev <;> rfl
  · cases ev <;> rfl
  · cases hfw : cfg.fixed_weights
    · by_cases hc : ts1 % cfg.target_update_period = 0 <;>
        simp [agentUpdate, hfw, hc, sansHistory]
    · simp [agentUpdate, hfw, sansHistory]
  · cases hup : cfg.use_priority
    · simp [updatePrio, hup, sansHistoryRel, sansHistory]
    · by_cases he : (it1.take (it1.length - 2)).isEmpty = true
      · simp [updatePrio, hup, he, sansHistoryRel]
      · simp [updatePrio, hup, he, sansHistoryRel, sansHistory]

theorem c10_history_noninterference_witness :
    (explore (fun _ => 1) (fun _ => 1/2) (fun _ _ => []) cfgPlain [] freshAgent).1
      = (explore (fun _ => 1) (fun _ => 1/2) (fun _ _ => []) cfgPlain []
          freshAgentHist).1
    ∧ sansHistory (agentUpdate cfgPlain stepSucc sampleNone freshAgent)
      = sansHistory (agentUpdate cfgPlain stepSucc sampleNone freshAgentHist) := by
  have h := c10_history_noninterference (fun _ => 1) (fun _ => 1/2)
    (fun _ _ => []) cfgPlain stepSucc sampleNone [] [] true
    freshAgent freshAgentHist rfl
  exact ⟨h.1, h.2.2.2.2.2.1⟩

end HanabiAgents
